import Mathlib

/-!
Shallow embedding of the indicator / buy-sell-volume pipeline of
`src/Gld_Dash.py` (classes `TechnicalAnalysis`, `DataManager`, `Dashboard.run`).

Modelling conventions:
* Python floats are modelled by `ℚ`; a pandas `NaN` cell is modelled by
  `none : Option ℚ`.  All pandas/numpy elementwise operations used by the
  script are NaN-propagating, which matches `Option`-propagation below.
  Float division by zero only occurs in the script with a zero numerator
  within the data-model domain (volumes are non-negative), where the float
  result is `NaN`; `odiv` returns `none` there, matching.
* A pandas `DataFrame` is a record of equally long columns; the five raw
  OHLCV columns are stored row-wise (`rows : List Bar`), derived columns
  as `List (Option ℚ)`, mirroring that raw cells are never NaN on fetch
  while derived cells may be.
* pandas `Series.sum()` skips NaN (skipna default) and returns `0.0` on an
  all-NaN series: modelled by `osum`.  `Series.cumsum()` keeps NaN cells in
  place and skips them in the running total: modelled by `ocumsum`.
* `Series.rolling(window=w).f()` yields NaN for the first `w-1` cells and
  applies `f` to the trailing `w`-cell window elsewhere: `rollingOpt`.
-/

namespace Gld

/-- One row of the fetched OHLCV frame (`gld.history(...)` output). -/
structure Bar where
  Open : ℚ
  High : ℚ
  Low : ℚ
  Close : ℚ
  Volume : ℚ
deriving DecidableEq, Repr

/-- The pandas DataFrame flowing through the pipeline: raw rows plus every
derived column the script assigns. -/
structure DataFrame where
  rows : List Bar
  SMA20 : List (Option ℚ)
  SMA50 : List (Option ℚ)
  RSI : List (Option ℚ)
  BB_middle : List (Option ℚ)
  BB_upper : List (Option ℚ)
  BB_lower : List (Option ℚ)
  MACD : List (Option ℚ)
  MACD_signal : List (Option ℚ)
  ATR : List (Option ℚ)
  Typical_Price : List (Option ℚ)
  VP : List (Option ℚ)
  VWAP : List (Option ℚ)
  Price_Change : List (Option ℚ)
  Volume_MA : List (Option ℚ)
  Relative_Volume : List (Option ℚ)
  Buy_Volume : List (Option ℚ)
  Sell_Volume : List (Option ℚ)
deriving DecidableEq, Repr

/-- A freshly fetched frame: raw rows only, no derived columns yet. -/
def rawFrame (rows : List Bar) : DataFrame :=
  ⟨rows, [], [], [], [], [], [], [], [], [], [], [], [], [], [], [], [], []⟩

/-- The empty DataFrame (`pd.DataFrame()`), the fetch-failure sentinel. -/
def emptyFrame : DataFrame := rawFrame []

/-- Column projections of the raw fields. -/
def opens (rows : List Bar) : List ℚ := rows.map Bar.Open

/-- Raw High column. -/
def highs (rows : List Bar) : List ℚ := rows.map Bar.High

/-- Raw Low column. -/
def lows (rows : List Bar) : List ℚ := rows.map Bar.Low

/-- Raw Close column. -/
def closes (rows : List Bar) : List ℚ := rows.map Bar.Close

/-- Raw Volume column. -/
def volumes (rows : List Bar) : List ℚ := rows.map Bar.Volume

/-- NaN-propagating addition of two float cells. -/
def oadd : Option ℚ → Option ℚ → Option ℚ
  | some a, some b => some (a + b)
  | _, _ => none

/-- NaN-propagating subtraction. -/
def osub : Option ℚ → Option ℚ → Option ℚ
  | some a, some b => some (a - b)
  | _, _ => none

/-- NaN-propagating multiplication. -/
def omul : Option ℚ → Option ℚ → Option ℚ
  | some a, some b => some (a * b)
  | _, _ => none

/-- NaN-propagating division; division by zero yields NaN (`none`).  In the
script every zero denominator comes with a zero numerator on the
non-negative-volume domain, so this matches float `0.0/0.0 = NaN`. -/
def odiv : Option ℚ → Option ℚ → Option ℚ
  | some a, some b => if b = 0 then none else some (a / b)
  | _, _ => none

/-- Elementwise `>` on float cells: any comparison with NaN is False,
as in pandas/numpy. -/
def ogt (a b : Option ℚ) : Bool :=
  match a, b with
  | some a, some b => decide (b < a)
  | _, _ => false

/-- Elementwise `<` on float cells: any comparison with NaN is False. -/
def olt (a b : Option ℚ) : Bool :=
  match a, b with
  | some a, some b => decide (a < b)
  | _, _ => false

/-- Cell of a derived column: out of range or NaN both give `none`. -/
def oget (xs : List (Option ℚ)) (i : ℕ) : Option ℚ := xs[i]?.join

/-- pandas `Series.sum()` with its default `skipna=True`: sum of the defined
cells, `0` when all cells are NaN. -/
def osum (xs : List (Option ℚ)) : ℚ := (xs.filterMap id).sum

/-- Plain cumulative sum of a NaN-free column. -/
def cumsum : List ℚ → List ℚ
  | [] => []
  | x :: xs => x :: (cumsum xs).map (x + ·)

/-- pandas `Series.cumsum()`: NaN cells stay NaN in place and are skipped by
the running total (`acc` is the sum of defined cells so far). -/
def ocumsumAux (acc : ℚ) : List (Option ℚ) → List (Option ℚ)
  | [] => []
  | none :: xs => none :: ocumsumAux acc xs
  | some x :: xs => some (acc + x) :: ocumsumAux (acc + x) xs

/-- Entry point of the cumulative-sum model. -/
def ocumsum (xs : List (Option ℚ)) : List (Option ℚ) := ocumsumAux 0 xs

/-- The trailing window of width `w` ending at index `i` (indices
`i+1-w .. i`, clipped at the front). -/
def windowSlice (w : ℕ) (xs : List ℚ) (i : ℕ) : List ℚ :=
  (xs.take (i + 1)).drop (i + 1 - w)

/-- pandas `Series.rolling(window=w)` followed by an aggregation `f`: NaN
while fewer than `w` cells are available, else `f` of the trailing window. -/
def rollingOpt (f : List ℚ → Option ℚ) (w : ℕ) (xs : List ℚ) : List (Option ℚ) :=
  (List.range xs.length).map fun i => if w ≤ i + 1 then f (windowSlice w xs i) else none

/-- Maximum of a list of rationals (`none` on the empty list). -/
def lmax : List ℚ → Option ℚ
  | [] => none
  | x :: xs =>
    some (match lmax xs with
          | none => x
          | some m => max x m)

/-- Minimum of a list of rationals (`none` on the empty list). -/
def lmin : List ℚ → Option ℚ
  | [] => none
  | x :: xs =>
    some (match lmin xs with
          | none => x
          | some m => min x m)

/-- `Series.rolling(window=w).mean()`; the window has exactly `w` cells when
defined, so the mean divides by `w`. -/
def rollingMean (w : ℕ) (xs : List ℚ) : List (Option ℚ) :=
  rollingOpt (fun l => some (l.sum / w)) w xs

/-- `Series.rolling(window=w).max()`. -/
def rollingMax (w : ℕ) (xs : List ℚ) : List (Option ℚ) :=
  rollingOpt lmax w xs

/-- `Series.rolling(window=w).min()`. -/
def rollingMin (w : ℕ) (xs : List ℚ) : List (Option ℚ) :=
  rollingOpt lmin w xs

/-! ### `DataManager.calculate_buy_sell_volume` (source lines 107-143)

Each assigned column of the Python body is one definition over the raw
rows; the function itself then packs them into the frame. -/

/-- `data['Typical_Price'] = (data['High'] + data['Low'] + data['Close']) / 3`. -/
def typicalPriceCol (rows : List Bar) : List (Option ℚ) :=
  rows.map fun b => some ((b.High + b.Low + b.Close) / 3)

/-- The raw Volume column viewed as float cells (never NaN on fetch). -/
def volumeCol (rows : List Bar) : List (Option ℚ) :=
  rows.map fun b => some b.Volume

/-- `data['VP'] = data['Typical_Price'] * data['Volume']`. -/
def vpCol (rows : List Bar) : List (Option ℚ) :=
  List.zipWith omul (typicalPriceCol rows) (volumeCol rows)

/-- `data['VWAP'] = data['VP'].cumsum() / data['Volume'].cumsum()`. -/
def vwapCol (rows : List Bar) : List (Option ℚ) :=
  List.zipWith odiv (ocumsum (vpCol rows)) ((cumsum (volumes rows)).map some)

/-- `data['Price_Change'] = data['Close'] - data['Open']`. -/
def priceChangeCol (rows : List Bar) : List (Option ℚ) :=
  rows.map fun b => some (b.Close - b.Open)

/-- `data['Volume_MA'] = data['Volume'].rolling(window=20).mean()`. -/
def volumeMACol (rows : List Bar) : List (Option ℚ) :=
  rollingMean 20 (volumes rows)

/-- `data['Relative_Volume'] = data['Volume'] / data['Volume_MA']`. -/
def relativeVolumeCol (rows : List Bar) : List (Option ℚ) :=
  List.zipWith odiv (volumeCol rows) (volumeMACol rows)

/-- The mask `(data['Close'] > data['VWAP']) & (data['Price_Change'] > 0)`
at row `i`. -/
def buyCond (rows : List Bar) (i : ℕ) : Bool :=
  ogt ((closes rows)[i]?) (oget (vwapCol rows) i) &&
    ogt (oget (priceChangeCol rows) i) (some 0)

/-- The mask `(data['Close'] < data['VWAP']) & (data['Price_Change'] < 0)`
at row `i`. -/
def sellCond (rows : List Bar) (i : ℕ) : Bool :=
  olt ((closes rows)[i]?) (oget (vwapCol rows) i) &&
    olt (oget (priceChangeCol rows) i) (some 0)

/-- `data['Buy_Volume'] = np.where(mask, Volume * Relative_Volume, Volume * 0.5)`. -/
def buyRawCol (rows : List Bar) : List (Option ℚ) :=
  (List.range rows.length).map fun i =>
    if buyCond rows i then
      omul (oget (volumeCol rows) i) (oget (relativeVolumeCol rows) i)
    else
      omul (oget (volumeCol rows) i) (some (1 / 2))

/-- `data['Sell_Volume'] = np.where(mask, Volume * Relative_Volume, Volume * 0.5)`. -/
def sellRawCol (rows : List Bar) : List (Option ℚ) :=
  (List.range rows.length).map fun i =>
    if sellCond rows i then
      omul (oget (volumeCol rows) i) (oget (relativeVolumeCol rows) i)
    else
      omul (oget (volumeCol rows) i) (some (1 / 2))

/-- `total_volume = data['Volume'].sum()`. -/
def total_volume (rows : List Bar) : ℚ := (volumes rows).sum

/-- `total_calculated = data['Buy_Volume'].sum() + data['Sell_Volume'].sum()`
(pandas sums skip NaN, so this is always a defined float). -/
def total_calculated (rows : List Bar) : ℚ :=
  osum (buyRawCol rows) + osum (sellRawCol rows)

/-- The renormalization step applied to one split column:
`col = (col / total_calculated) * total_volume` under the
`total_calculated > 0` guard, else the column unchanged. -/
def renormalize (rows : List Bar) (col : List (Option ℚ)) : List (Option ℚ) :=
  if 0 < total_calculated rows then
    col.map (Option.map fun v => v / total_calculated rows * total_volume rows)
  else
    col

/-- The final `Buy_Volume` column. -/
def buyFinalCol (rows : List Bar) : List (Option ℚ) :=
  renormalize rows (buyRawCol rows)

/-- The final `Sell_Volume` column. -/
def sellFinalCol (rows : List Bar) : List (Option ℚ) :=
  renormalize rows (sellRawCol rows)

/-- `DataManager.calculate_buy_sell_volume`: early return on the empty frame,
otherwise assign the eight derived columns. -/
def calculate_buy_sell_volume (data : DataFrame) : DataFrame :=
  if data.rows.isEmpty then data
  else
    { data with
      Typical_Price := typicalPriceCol data.rows
      VP := vpCol data.rows
      VWAP := vwapCol data.rows
      Price_Change := priceChangeCol data.rows
      Volume_MA := volumeMACol data.rows
      Relative_Volume := relativeVolumeCol data.rows
      Buy_Volume := buyFinalCol data.rows
      Sell_Volume := sellFinalCol data.rows }

/-! ### `TechnicalAnalysis.calculate_all_indicators` (source lines 21-42)

The body delegates every formula to the external `ta` library; the
definitions below model those external calls by their documented formulas
(spec section 4.1).  No claim depends on the numeric values of these
columns — only on their being pure functions of the raw series — but the
formulas are kept concrete and executable.  Float square roots (Bollinger
deviation) are modelled by `Rat.sqrt`, and the float `x/0 = inf` corner of
the external RSI (zero average loss) is modelled as NaN; the spec flags
that corner as an open question and no claim touches it. -/

/-- Recursive exponentially weighted mean with weight `a` (pandas
`ewm(adjust=False)`), seeded by the first value. -/
def emaAux (a : ℚ) (acc : ℚ) : List ℚ → List ℚ
  | [] => []
  | x :: xs =>
    let y := a * x + (1 - a) * acc
    y :: emaAux a y xs

/-- Exponentially weighted mean with explicit weight. -/
def ewmAlpha (a : ℚ) : List ℚ → List ℚ
  | [] => []
  | x :: xs => x :: emaAux a x xs

/-- Span-parameterized EMA, weight `2/(span+1)`. -/
def ema (span : ℕ) (xs : List ℚ) : List ℚ :=
  ewmAlpha (2 / (span + 1)) xs

/-- Models `ta.trend.sma_indicator(close, window)`. -/
def smaCol (w : ℕ) (xs : List ℚ) : List (Option ℚ) := rollingMean w xs

/-- Consecutive differences `close[i+1] - close[i]` (length one less than
the input). -/
def diffs (xs : List ℚ) : List ℚ :=
  List.zipWith (fun a b => a - b) xs.tail xs

/-- Models `ta.momentum.rsi(close, window)`: smoothed gains over smoothed
losses, `100 - 100/(1+RS)`, NaN until `window` deltas exist and NaN when the
smoothed loss is zero. -/
def rsiCol (w : ℕ) (xs : List ℚ) : List (Option ℚ) :=
  match xs with
  | [] => []
  | _ :: _ =>
    let d := diffs xs
    let g := ewmAlpha (1 / w) (d.map fun x => max x 0)
    let l := ewmAlpha (1 / w) (d.map fun x => max (-x) 0)
    none :: (List.range d.length).map fun j =>
      if w ≤ j + 1 then
        osub (some 100) (odiv (some 100) (oadd (some 1) (odiv g[j]? l[j]?)))
      else none

/-- Rolling population standard deviation, the external library's Bollinger
deviation; the irrational float square root is modelled by `Rat.sqrt`. -/
def rollingStd (w : ℕ) (xs : List ℚ) : List (Option ℚ) :=
  rollingOpt
    (fun l =>
      let m := l.sum / w
      some (Rat.sqrt ((l.map fun x => (x - m) ^ 2).sum / w)))
    w xs

/-- Models `ta.volatility.bollinger_mavg(close, 20)`. -/
def bbMiddleCol (xs : List ℚ) : List (Option ℚ) := rollingMean 20 xs

/-- Models `ta.volatility.bollinger_hband(close, 20)`: middle + 2·std. -/
def bbUpperCol (xs : List ℚ) : List (Option ℚ) :=
  List.zipWith (fun m s => oadd m (omul (some 2) s)) (bbMiddleCol xs) (rollingStd 20 xs)

/-- Models `ta.volatility.bollinger_lband(close, 20)`: middle − 2·std. -/
def bbLowerCol (xs : List ℚ) : List (Option ℚ) :=
  List.zipWith (fun m s => osub m (omul (some 2) s)) (bbMiddleCol xs) (rollingStd 20 xs)

/-- The MACD line, EMA12 − EMA26 of close. -/
def macdLine (xs : List ℚ) : List ℚ :=
  List.zipWith (fun a b => a - b) (ema 12 xs) (ema 26 xs)

/-- Models `ta.trend.macd_signal(close)`: 9-period EMA of the MACD line. -/
def macdSignalCol (xs : List ℚ) : List (Option ℚ) :=
  (ema 9 (macdLine xs)).map some

/-- Models `ta.trend.macd_diff(close)`: MACD line minus its signal line. -/
def macdDiffCol (xs : List ℚ) : List (Option ℚ) :=
  (List.zipWith (fun a b => a - b) (macdLine xs) (ema 9 (macdLine xs))).map some

/-- True range of bar `i` against the previous close; NaN on the first bar. -/
def trueRangeCol (rows : List Bar) : List (Option ℚ) :=
  (List.range rows.length).map fun i =>
    match rows[i]?, (if i = 0 then none else rows[i - 1]?) with
    | some b, some p =>
      some (max (b.High - b.Low) (max |b.High - p.Close| |b.Low - p.Close|))
    | some _, none => none
    | none, _ => none

/-- Rolling mean over float cells: NaN unless the whole trailing window of
width `w` is defined. -/
def rollingMeanOpt (w : ℕ) (xs : List (Option ℚ)) : List (Option ℚ) :=
  (List.range xs.length).map fun i =>
    if w ≤ i + 1 then
      let win := (List.range w).map fun k => oget xs (i + 1 - w + k)
      if win.all Option.isSome then some ((win.filterMap id).sum / w) else none
    else none

/-- Models `ta.volatility.average_true_range(high, low, close)` with its
default 14-bar window: the smoothed mean of the true range (spec 4.1 gives
the rolling-mean formulation). -/
def atrCol (rows : List Bar) : List (Option ℚ) :=
  rollingMeanOpt 14 (trueRangeCol rows)

/-- `TechnicalAnalysis.calculate_all_indicators`: assign the nine indicator
columns, each a pure function of the raw series. -/
def calculate_all_indicators (data : DataFrame) : DataFrame :=
  { data with
    SMA20 := smaCol 20 (closes data.rows)
    SMA50 := smaCol 50 (closes data.rows)
    RSI := rsiCol 14 (closes data.rows)
    BB_middle := bbMiddleCol (closes data.rows)
    BB_upper := bbUpperCol (closes data.rows)
    BB_lower := bbLowerCol (closes data.rows)
    MACD := macdDiffCol (closes data.rows)
    MACD_signal := macdSignalCol (closes data.rows)
    ATR := atrCol data.rows }

/-! ### `TechnicalAnalysis.find_support_resistance` (source lines 45-59) -/

/-- numpy take with `mode='clip'`: an out-of-bounds index is clamped into
`[0, n-1]`. -/
def clipIdx (n : ℕ) (j : ℤ) : ℕ := min j.toNat (n - 1)

/-- One comparison row of scipy's `_boolrelextrema` with `mode='clip'`:
index `i` survives iff `cmp data[i] data[clip(i±s)]` holds for every shift
`s = 1..order`. -/
def relOk (cmp : ℚ → ℚ → Bool) (ord : ℕ) (xs : List ℚ) (i : ℕ) : Bool :=
  (List.range ord).all fun s =>
    cmp (xs.getD i 0) (xs.getD (clipIdx xs.length (i + (s + 1))) 0) &&
      cmp (xs.getD i 0) (xs.getD (clipIdx xs.length ((i : ℤ) - (s + 1))) 0)

/-- Models `scipy.signal.argrelextrema(xs, comparator, order=ord)[0]`:
the surviving indices in increasing order. -/
def argrelextrema (cmp : ℚ → ℚ → Bool) (ord : ℕ) (xs : List ℚ) : List ℕ :=
  (List.range xs.length).filter fun i => relOk cmp ord xs i

/-- The comparator `np.greater_equal`. -/
def geCmp (a b : ℚ) : Bool := decide (b ≤ a)

/-- The comparator `np.less_equal`. -/
def leCmp (a b : ℚ) : Bool := decide (a ≤ b)

/-- `data['High'].iloc[local_max]` — the selected cells, by position. -/
def selectIdx (xs : List ℚ) (idx : List ℕ) : List ℚ :=
  idx.filterMap fun i => xs[i]?

/-- `TechnicalAnalysis.find_support_resistance`, returning
`(support_levels, resistance_levels)`.  The scipy-available branch selects
the local-extrema cells; the fallback returns the full rolling envelopes
(NaN for the first `window-1` cells). -/
def find_support_resistance (scipyAvailable : Bool) (data : DataFrame)
    (window : ℕ := 20) : List (Option ℚ) × List (Option ℚ) :=
  if !scipyAvailable then
    (rollingMin window (lows data.rows), rollingMax window (highs data.rows))
  else
    let localMax := argrelextrema geCmp window (highs data.rows)
    let localMin := argrelextrema leCmp window (lows data.rows)
    ((selectIdx (lows data.rows) localMin).map some,
      (selectIdx (highs data.rows) localMax).map some)

/-! ### `TechnicalAnalysis.calculate_volume_profile` (source lines 62-71) -/

/-- `np.linspace(a, b, n)`: `n` evenly spaced points from `a` to `b`
inclusive. -/
def linspace (a b : ℚ) (n : ℕ) : List ℚ :=
  (List.range n).map fun k : ℕ => a + (b - a) * (k : ℚ) / ((n : ℚ) - 1)

/-- `np.digitize(x, edges)` for increasing edges (`right=False`): the number
of edges `≤ x`. -/
def digitize (x : ℚ) (edges : List ℚ) : ℕ :=
  edges.countP fun e => decide (e ≤ x)

/-- The fold body `volume_profile[price_idx-1] += volume`.  Under the data
model (`low ≤ close ≤ high`) the index is always in range; `List.set`
ignores an out-of-range index. -/
def profileStep (edges : List ℚ) (acc : List ℚ) (b : Bar) : List ℚ :=
  let idx := digitize b.Close edges - 1
  acc.set idx (acc.getD idx 0 + b.Volume)

/-- `TechnicalAnalysis.calculate_volume_profile`: returns
`(price_range, volume_profile)`. -/
def calculate_volume_profile (data : DataFrame) (price_bins : ℕ := 50) :
    List ℚ × List ℚ :=
  let price_range :=
    linspace ((lmin (lows data.rows)).getD 0) ((lmax (highs data.rows)).getD 0) price_bins
  let profile := data.rows.foldl (profileStep price_range) (List.replicate price_bins 0)
  (price_range, profile)

/-! ### `DataManager.get_gld_data` (source lines 75-104) and the per-cycle
pipeline of `Dashboard.run` (source lines 358-365) -/

/-- The external `yf.Ticker("GLD").history(...)` call either yields a raw
frame or raises; `get_gld_data` catches any raise and returns the empty
frame, never propagating the exception. -/
def get_gld_data (fetched : Except String (List Bar)) : DataFrame :=
  match fetched with
  | .ok rows => rawFrame rows
  | .error _ => emptyFrame

/-- The enrichment pipeline applied inside a refresh cycle. -/
def fullPipeline (data : DataFrame) : DataFrame :=
  calculate_buy_sell_volume (calculate_all_indicators data)

/-- One refresh cycle of `Dashboard.run`: fetch, and only when the frame is
non-empty run the pipeline (`none` models the skipped cycle). -/
def runCycle (fetched : Except String (List Bar)) : Option DataFrame :=
  let data := get_gld_data fetched
  if data.rows.isEmpty then none
  else some (fullPipeline data)

/-! ### Cell-level lemmas about the column combinators -/

theorem getElem?_zipWith {α β γ : Type} (f : α → β → γ) :
    ∀ (as : List α) (bs : List β) (i : ℕ),
      (List.zipWith f as bs)[i]? = as[i]?.bind fun a => bs[i]?.map fun b => f a b
  | [], _, _ => by simp
  | _ :: _, [], _ => by simp
  | _ :: _, _ :: _, 0 => by simp
  | _ :: as, _ :: bs, i + 1 => by
    simpa using getElem?_zipWith f as bs i

theorem oget_rangeMap (f : ℕ → Option ℚ) {n i : ℕ} (h : i < n) :
    oget ((List.range n).map f) i = f i := by
  simp [oget, List.getElem?_map, List.getElem?_range h]

theorem mem_of_oget {xs : List (Option ℚ)} {i : ℕ} {v : ℚ}
    (h : oget xs i = some v) : some v ∈ xs := by
  unfold oget at h
  exact List.getElem?_mem (Option.join_eq_some.mp h)

theorem cumsum_length (xs : List ℚ) : (cumsum xs).length = xs.length := by
  induction xs with
  | nil => rfl
  | cons x xs ih => simp [cumsum, ih]

theorem cumsum_getElem? (xs : List ℚ) (i : ℕ) (h : i < xs.length) :
    (cumsum xs)[i]? = some ((xs.take (i + 1)).sum) := by
  induction xs generalizing i with
  | nil => simp at h
  | cons x xs ih =>
    cases i with
    | zero => simp [cumsum]
    | succ i =>
      have hi : i < xs.length := by simpa using h
      simp [cumsum, List.getElem?_map, ih i hi]

theorem ocumsumAux_map_some (acc : ℚ) (xs : List ℚ) :
    ocumsumAux acc (xs.map some) = (cumsum xs).map fun v => some (acc + v) := by
  induction xs generalizing acc with
  | nil => rfl
  | cons x xs ih =>
    simp only [List.map_cons, ocumsumAux, cumsum, ih, List.map_map]
    congr 1
    exact List.map_congr_left fun v _ => by simp [add_assoc]

theorem ocumsum_map_some (xs : List ℚ) :
    ocumsum (xs.map some) = (cumsum xs).map some := by
  simp [ocumsum, ocumsumAux_map_some 0 xs]

theorem zipWith_omul_map_some :
    ∀ (as bs : List ℚ),
      List.zipWith omul (as.map some) (bs.map some) =
        (List.zipWith (· * ·) as bs).map some
  | [], _ => by simp
  | _ :: _, [] => by simp
  | a :: as, b :: bs => by
    simpa [omul] using zipWith_omul_map_some as bs

theorem windowSlice_length {w : ℕ} {xs : List ℚ} {i : ℕ}
    (hw : w ≤ i + 1) (h : i < xs.length) :
    (windowSlice w xs i).length = w := by
  simp only [windowSlice, List.length_drop, List.length_take]
  omega

theorem windowSlice_getElem? {w : ℕ} {xs : List ℚ} {i j : ℕ}
    (hw : w ≤ i + 1) (hj : j < w) :
    (windowSlice w xs i)[j]? = xs[i + 1 - w + j]? := by
  simp only [windowSlice, List.getElem?_drop, List.getElem?_take]
  rw [if_pos (by omega)]

theorem windowSlice_subset (w : ℕ) (xs : List ℚ) (i : ℕ) :
    windowSlice w xs i ⊆ xs := fun _ h =>
  List.take_subset _ _ (List.drop_subset _ _ h)

theorem lmax_mem : ∀ {xs : List ℚ} {m : ℚ}, lmax xs = some m → m ∈ xs := by
  intro xs
  induction xs with
  | nil => intro m h; simp [lmax] at h
  | cons x xs ih =>
    intro m h
    simp only [lmax] at h
    cases hx : lmax xs with
    | none => rw [hx] at h; simp at h; simp [h]
    | some k =>
      rw [hx] at h
      simp only [Option.some_inj] at h
      rcases max_choice x k with hc | hc
      · rw [← h, hc]; exact List.mem_cons_self x xs
      · rw [← h, hc]; exact List.mem_cons_of_mem x (ih hx)

theorem le_lmax : ∀ {xs : List ℚ} {m : ℚ}, lmax xs = some m → ∀ y ∈ xs, y ≤ m := by
  intro xs
  induction xs with
  | nil => intro m h; simp [lmax] at h
  | cons x xs ih =>
    intro m h y hy
    simp only [lmax] at h
    cases hx : lmax xs with
    | none =>
      rw [hx] at h
      cases xs with
      | nil =>
        simp only [Option.some_inj] at h
        rcases List.mem_singleton.1 hy with rfl
        simp [← h]
      | cons z zs => simp [lmax] at hx
    | some k =>
      rw [hx] at h
      simp only [Option.some_inj] at h
      rcases List.mem_cons.1 hy with rfl | hy'
      · rw [← h]; exact le_max_left _ _
      · exact le_trans (ih hx y hy') (h ▸ le_max_right x k)

theorem lmin_mem : ∀ {xs : List ℚ} {m : ℚ}, lmin xs = some m → m ∈ xs := by
  intro xs
  induction xs with
  | nil => intro m h; simp [lmin] at h
  | cons x xs ih =>
    intro m h
    simp only [lmin] at h
    cases hx : lmin xs with
    | none => rw [hx] at h; simp at h; simp [h]
    | some k =>
      rw [hx] at h
      simp only [Option.some_inj] at h
      rcases min_choice x k with hc | hc
      · rw [← h, hc]; exact List.mem_cons_self x xs
      · rw [← h, hc]; exact List.mem_cons_of_mem x (ih hx)

theorem lmin_le : ∀ {xs : List ℚ} {m : ℚ}, lmin xs = some m → ∀ y ∈ xs, m ≤ y := by
  intro xs
  induction xs with
  | nil => intro m h; simp [lmin] at h
  | cons x xs ih =>
    intro m h y hy
    simp only [lmin] at h
    cases hx : lmin xs with
    | none =>
      rw [hx] at h
      cases xs with
      | nil =>
        simp only [Option.some_inj] at h
        rcases List.mem_singleton.1 hy with rfl
        simp [← h]
      | cons z zs => simp [lmin] at hx
    | some k =>
      rw [hx] at h
      simp only [Option.some_inj] at h
      rcases List.mem_cons.1 hy with rfl | hy'
      · rw [← h]; exact min_le_left _ _
      · exact le_trans (h ▸ min_le_right x k) (ih hx y hy')

theorem lmax_isSome {xs : List ℚ} (h : xs ≠ []) : (lmax xs).isSome := by
  cases xs with
  | nil => exact absurd rfl h
  | cons x xs => simp [lmax]

theorem lmin_isSome {xs : List ℚ} (h : xs ≠ []) : (lmin xs).isSome := by
  cases xs with
  | nil => exact absurd rfl h
  | cons x xs => simp [lmin]

/-! ### Lemmas about the NaN-skipping sum -/

theorem filterMap_id_map (f : ℚ → ℚ) (xs : List (Option ℚ)) :
    (xs.map (Option.map f)).filterMap id = (xs.filterMap id).map f := by
  induction xs with
  | nil => rfl
  | cons x xs ih => cases x <;> simp [ih]

theorem osum_map (f : ℚ → ℚ) (xs : List (Option ℚ)) :
    osum (xs.map (Option.map f)) = ((xs.filterMap id).map f).sum := by
  rw [osum, filterMap_id_map]

theorem osum_scale (k : ℚ) (xs : List (Option ℚ)) :
    osum (xs.map (Option.map fun v => v * k)) = osum xs * k := by
  rw [osum_map]
  simpa using List.sum_map_mul_right (xs.filterMap id) id k

theorem osum_nonneg {xs : List (Option ℚ)}
    (h : ∀ x ∈ xs, ∀ v : ℚ, x = some v → 0 ≤ v) : 0 ≤ osum xs := by
  refine List.sum_nonneg fun y hy => ?_
  obtain ⟨x, hx, hxy⟩ := List.mem_filterMap.1 hy
  exact h x hx y hxy

theorem le_osum {xs : List (Option ℚ)} {v : ℚ} (hv : some v ∈ xs)
    (h : ∀ x ∈ xs, ∀ w : ℚ, x = some w → 0 ≤ w) : v ≤ osum xs := by
  refine List.single_le_sum (fun y hy => ?_) v ?_
  · obtain ⟨x, hx, hxy⟩ := List.mem_filterMap.1 hy
    exact h x hx y hxy
  · exact List.mem_filterMap.2 ⟨some v, hv, rfl⟩

/-! ### Sign facts about the split columns (on the non-negative-volume
domain of the data model) -/

theorem volumeCol_cell {rows : List Bar} {i : ℕ} {bar : Bar}
    (h : rows[i]? = some bar) :
    (volumeCol rows)[i]? = some (some bar.Volume) := by
  simp [volumeCol, List.getElem?_map, h]

theorem oget_volumeCol {rows : List Bar} {i : ℕ} {bar : Bar}
    (h : rows[i]? = some bar) :
    oget (volumeCol rows) i = some bar.Volume := by
  simp [oget, volumeCol_cell h, Option.join]

theorem volumeMA_cell_nonneg {rows : List Bar}
    (hv : ∀ b ∈ rows, 0 ≤ b.Volume) :
    ∀ x ∈ volumeMACol rows, ∀ m : ℚ, x = some m → 0 ≤ m := by
  intro x hx m hm
  subst hm
  simp only [volumeMACol, rollingMean, rollingOpt, List.mem_map] at hx
  obtain ⟨i, _, hi⟩ := hx
  by_cases hw : 20 ≤ i + 1
  · rw [if_pos hw] at hi
    have hm' : m = (windowSlice 20 (volumes rows) i).sum / 20 := by
      simpa using hi.symm
    have hsum : 0 ≤ (windowSlice 20 (volumes rows) i).sum := by
      refine List.sum_nonneg fun y hy => ?_
      have hy' : y ∈ volumes rows := windowSlice_subset _ _ _ hy
      obtain ⟨b, hb, rfl⟩ := List.mem_map.1 hy'
      exact hv b hb
    rw [hm']
    positivity
  · rw [if_neg hw] at hi
    simp at hi

theorem relVol_cell_nonneg {rows : List Bar}
    (hv : ∀ b ∈ rows, 0 ≤ b.Volume) {i : ℕ} {r : ℚ}
    (h : oget (relativeVolumeCol rows) i = some r) : 0 ≤ r := by
  unfold oget relativeVolumeCol at h
  rw [getElem?_zipWith] at h
  cases ha : (volumeCol rows)[i]? with
  | none => rw [ha] at h; simp at h
  | some a =>
    cases hb : (volumeMACol rows)[i]? with
    | none => rw [ha, hb] at h; simp at h
    | some b =>
      rw [ha, hb] at h
      have h : odiv a b = some r := by simpa [oget, Option.join] using h
      have ha' : ∃ bar ∈ rows, a = some bar.Volume := by
        simp only [volumeCol, List.getElem?_map] at ha
        cases hr : rows[i]? with
        | none => rw [hr] at ha; simp at ha
        | some bar =>
          rw [hr] at ha
          simp at ha
          exact ⟨bar, List.getElem?_mem hr, ha.symm⟩
      obtain ⟨bar, hbar, rfl⟩ := ha'
      cases b with
      | none => simp [odiv] at h
      | some m =>
        simp only [odiv] at h
        by_cases hm : m = 0
        · rw [if_pos hm] at h; exact absurd h (by simp)
        · rw [if_neg hm] at h
          have hm0 : 0 ≤ m :=
            volumeMA_cell_nonneg hv _ (List.getElem?_mem hb) m rfl
          have := hv bar hbar
          rw [← Option.some_inj.mp h]
          positivity

theorem rawCol_cell_nonneg {rows : List Bar}
    (hv : ∀ b ∈ rows, 0 ≤ b.Volume) (cond : ℕ → Bool) :
    ∀ x ∈ (List.range rows.length).map fun i =>
        if cond i then omul (oget (volumeCol rows) i) (oget (relativeVolumeCol rows) i)
        else omul (oget (volumeCol rows) i) (some (1 / 2)),
      ∀ v : ℚ, x = some v → 0 ≤ v := by
  intro x hx v hxv
  subst hxv
  simp only [List.mem_map, List.mem_range] at hx
  obtain ⟨i, hi, hcell⟩ := hx
  have hbar : ∃ bar, rows[i]? = some bar := by
    cases hr : rows[i]? with
    | none => rw [List.getElem?_eq_none_iff] at hr; omega
    | some bar => exact ⟨bar, rfl⟩
  obtain ⟨bar, hbar⟩ := hbar
  have hvol : oget (volumeCol rows) i = some bar.Volume := oget_volumeCol hbar
  have hbnn : 0 ≤ bar.Volume := hv bar (List.getElem?_mem hbar)
  by_cases hc : cond i
  · rw [if_pos hc, hvol] at hcell
    cases hrv : oget (relativeVolumeCol rows) i with
    | none => rw [hrv] at hcell; simp [omul] at hcell
    | some r =>
      rw [hrv] at hcell
      simp only [omul, Option.some_inj] at hcell
      have := relVol_cell_nonneg hv hrv
      rw [← hcell]
      positivity
  · rw [if_neg hc, hvol] at hcell
    simp only [omul, Option.some_inj] at hcell
    rw [← hcell]
    positivity

theorem buyRaw_cell_nonneg {rows : List Bar}
    (hv : ∀ b ∈ rows, 0 ≤ b.Volume) :
    ∀ x ∈ buyRawCol rows, ∀ v : ℚ, x = some v → 0 ≤ v :=
  rawCol_cell_nonneg hv (buyCond rows)

theorem sellRaw_cell_nonneg {rows : List Bar}
    (hv : ∀ b ∈ rows, 0 ≤ b.Volume) :
    ∀ x ∈ sellRawCol rows, ∀ v : ℚ, x = some v → 0 ≤ v :=
  rawCol_cell_nonneg hv (sellCond rows)

theorem total_calculated_nonneg {rows : List Bar}
    (hv : ∀ b ∈ rows, 0 ≤ b.Volume) : 0 ≤ total_calculated rows :=
  add_nonneg (osum_nonneg (buyRaw_cell_nonneg hv)) (osum_nonneg (sellRaw_cell_nonneg hv))

theorem oget_buyRaw {rows : List Bar} {i : ℕ} (h : i < rows.length) :
    oget (buyRawCol rows) i =
      if buyCond rows i then
        omul (oget (volumeCol rows) i) (oget (relativeVolumeCol rows) i)
      else omul (oget (volumeCol rows) i) (some (1 / 2)) :=
  oget_rangeMap _ h

theorem oget_sellRaw {rows : List Bar} {i : ℕ} (h : i < rows.length) :
    oget (sellRawCol rows) i =
      if sellCond rows i then
        omul (oget (volumeCol rows) i) (oget (relativeVolumeCol rows) i)
      else omul (oget (volumeCol rows) i) (some (1 / 2)) :=
  oget_rangeMap _ h

theorem not_buy_and_sell (rows : List Bar) (i : ℕ) :
    ¬(buyCond rows i = true ∧ sellCond rows i = true) := by
  rintro ⟨hb, hs⟩
  simp only [buyCond, sellCond, Bool.and_eq_true] at hb hs
  obtain ⟨hb1, -⟩ := hb
  obtain ⟨hs1, -⟩ := hs
  cases hc : (closes rows)[i]? with
  | none => rw [hc] at hb1; simp [ogt] at hb1
  | some c =>
    cases hw : oget (vwapCol rows) i with
    | none => rw [hc, hw] at hb1; simp [ogt] at hb1
    | some w =>
      rw [hc, hw] at hb1 hs1
      simp only [ogt, olt, decide_eq_true_eq] at hb1 hs1
      linarith

theorem half_cell {rows : List Bar} {k : ℕ} {bar : Bar}
    (hbar : rows[k]? = some bar) :
    oget (buyRawCol rows) k = some (bar.Volume * (1 / 2)) ∨
      oget (sellRawCol rows) k = some (bar.Volume * (1 / 2)) := by
  have hk : k < rows.length := by
    by_contra hk
    rw [List.getElem?_eq_none_iff.2 (by omega)] at hbar
    exact Option.noConfusion hbar
  have hvol := oget_volumeCol hbar
  by_cases hb : buyCond rows k
  · right
    have hs : sellCond rows k = false := by
      by_contra hs
      exact not_buy_and_sell rows k ⟨hb, by revert hs; cases sellCond rows k <;> simp⟩
    rw [oget_sellRaw hk, hs, if_neg (by simp), hvol]
    rfl
  · left
    rw [oget_buyRaw hk, if_neg hb, hvol]
    rfl

theorem total_calculated_pos {rows : List Bar}
    (hv : ∀ b ∈ rows, 0 ≤ b.Volume) {k : ℕ} {bar : Bar}
    (hbar : rows[k]? = some bar) (hpos : 0 < bar.Volume) :
    0 < total_calculated rows := by
  have h2 : 0 < bar.Volume * (1 / 2 : ℚ) := by positivity
  rcases half_cell hbar with h | h
  · have := le_osum (mem_of_oget h) (buyRaw_cell_nonneg hv)
    have := osum_nonneg (sellRaw_cell_nonneg hv)
    unfold total_calculated
    linarith
  · have := le_osum (mem_of_oget h) (sellRaw_cell_nonneg hv)
    have := osum_nonneg (buyRaw_cell_nonneg hv)
    unfold total_calculated
    linarith

/-! ### The renormalization algebra -/

theorem osum_renormalize {rows : List Bar} (col : List (Option ℚ))
    (h : 0 < total_calculated rows) :
    osum (renormalize rows col) =
      osum col * (total_volume rows / total_calculated rows) := by
  rw [renormalize, if_pos h]
  have hf : (fun v : ℚ => v / total_calculated rows * total_volume rows) =
      fun v => v * (total_volume rows / total_calculated rows) :=
    funext fun v => by ring
  rw [ hf, osum_scale]

theorem sum_after_renormalize {rows : List Bar}
    (h : 0 < total_calculated rows) :
    osum (buyFinalCol rows) + osum (sellFinalCol rows) = total_volume rows := by
  unfold buyFinalCol sellFinalCol
  rw [osum_renormalize _ h, osum_renormalize _ h, ← add_mul]
  rw [show osum (buyRawCol rows) + osum (sellRawCol rows) = total_calculated rows from rfl]
  field_simp

theorem Buy_Volume_eq {data : DataFrame} (hne : data.rows ≠ []) :
    (calculate_buy_sell_volume data).Buy_Volume = buyFinalCol data.rows := by
  rw [calculate_buy_sell_volume, if_neg (by simpa using hne)]

theorem Sell_Volume_eq {data : DataFrame} (hne : data.rows ≠ []) :
    (calculate_buy_sell_volume data).Sell_Volume = sellFinalCol data.rows := by
  rw [calculate_buy_sell_volume, if_neg (by simpa using hne)]

/-- C1: for a non-empty series with non-negative per-bar volume, the
renormalization step of `calculate_buy_sell_volume` is conditional on the
pre-renormalization total `sum(Buy_Volume) + sum(Sell_Volume)` (always a
defined number, pandas sums skipping NaN): if it is nonzero, both columns
are rescaled by the single factor `total_volume / total_calculated` and the
post-renormalization sums satisfy
`sum(Buy_Volume) + sum(Sell_Volume) = sum(volume)` exactly; if it is zero,
both columns are left unchanged. -/
theorem C1_renormalization (data : DataFrame) (hne : data.rows ≠ [])
    (hv : ∀ b ∈ data.rows, 0 ≤ b.Volume) :
    (total_calculated data.rows ≠ 0 →
      (calculate_buy_sell_volume data).Buy_Volume =
        (buyRawCol data.rows).map (Option.map fun v =>
          v * (total_volume data.rows / total_calculated data.rows)) ∧
      (calculate_buy_sell_volume data).Sell_Volume =
        (sellRawCol data.rows).map (Option.map fun v =>
          v * (total_volume data.rows / total_calculated data.rows)) ∧
      osum (calculate_buy_sell_volume data).Buy_Volume +
          osum (calculate_buy_sell_volume data).Sell_Volume =
        (volumes data.rows).sum) ∧
    (total_calculated data.rows = 0 →
      (calculate_buy_sell_volume data).Buy_Volume = buyRawCol data.rows ∧
      (calculate_buy_sell_volume data).Sell_Volume = sellRawCol data.rows) := by
  have hmap : ∀ col : List (Option ℚ),
      col.map (Option.map fun v => v / total_calculated data.rows * total_volume data.rows) =
        col.map (Option.map fun v => v * (total_volume data.rows / total_calculated data.rows)) := by
    intro col
    congr 1
    exact funext fun o => congrArg (Option.map · o) (funext fun v => by ring)
  constructor
  · intro h0
    have hpos : 0 < total_calculated data.rows :=
      lt_of_le_of_ne (total_calculated_nonneg hv) (Ne.symm h0)
    refine ⟨?_, ?_, ?_⟩
    · rw [Buy_Volume_eq hne]
      unfold buyFinalCol renormalize
      rw [if_pos hpos]
      exact hmap _
    · rw [Sell_Volume_eq hne]
      unfold sellFinalCol renormalize
      rw [if_pos hpos]
      exact hmap _
    · rw [Buy_Volume_eq hne, Sell_Volume_eq hne]
      exact sum_after_renormalize hpos
  · intro h0
    have hneg : ¬0 < total_calculated data.rows := by rw [h0]; exact lt_irrefl 0
    constructor
    · rw [Buy_Volume_eq hne]
      unfold buyFinalCol renormalize
      rw [if_neg hneg]
    · rw [Sell_Volume_eq hne]
      unfold sellFinalCol renormalize
      rw [if_neg hneg]

/-- A concrete one-bar frame exercising C1. -/
def c1Frame : DataFrame := rawFrame [⟨1, 1, 1, 1, 2⟩]

/-- Witness for C1 at a concrete non-empty frame with positive volume. -/
theorem C1_renormalization_witness :
    c1Frame.rows ≠ [] ∧ (∀ b ∈ c1Frame.rows, 0 ≤ b.Volume) ∧
      total_calculated c1Frame.rows ≠ 0 ∧
      osum (calculate_buy_sell_volume c1Frame).Buy_Volume +
          osum (calculate_buy_sell_volume c1Frame).Sell_Volume =
        (volumes c1Frame.rows).sum :=
  ⟨by decide, by with_unfolding_all decide, by with_unfolding_all decide,
    ((C1_renormalization c1Frame (by decide) (by with_unfolding_all decide)).1
      (by with_unfolding_all decide)).2.2⟩

theorem lt_length_of_getElem? {α : Type} {l : List α} {i : ℕ} {a : α}
    (h : l[i]? = some a) : i < l.length := by
  by_contra hk
  rw [List.getElem?_eq_none_iff.2 (by omega)] at h
  exact Option.noConfusion h

/-- A 20-bar series for C2: nineteen flat zero-volume bars, then a bar
meeting the predominant buy condition whose relative volume is 20. -/
def c2Rows : List Bar :=
  List.replicate 19 ⟨10, 10, 10, 10, 0⟩ ++ [⟨10, 12, 10, 12, 20⟩]

/-- C2 as stated is false on the code: at bar 19 the predominant buy side
receives `volume · RelativeVolume = 400` but the sell side receives
`volume · 0.5 = 10`, not the complement `volume − 400`, so
`Buy_Volume[19] + Sell_Volume[19] = 410 ≠ 20 = volume[19]`. -/
theorem C2_counterexample :
    buyCond c2Rows 19 = true ∧
      oget (buyRawCol c2Rows) 19 = some 400 ∧
      oget (sellRawCol c2Rows) 19 = some 10 ∧
      (volumes c2Rows)[19]? = some 20 ∧
      oadd (oget (buyRawCol c2Rows) 19) (oget (sellRawCol c2Rows) 19) ≠
        (volumes c2Rows)[19]? := by
  with_unfolding_all decide

/-- C2 amended: before renormalization, a bar meeting its predominant
condition gets `volume · RelativeVolume` on that side while the other side
gets `volume · 0.5` (not the complement `volume − assigned`); a bar meeting
neither condition gets `volume · 0.5` on both sides — the VWAP comparison
plays no role in the non-predominant branch — and only then does
`Buy_Volume[i] + Sell_Volume[i] = volume[i]` hold. -/
theorem C2_amended {rows : List Bar} {i : ℕ} {bar : Bar}
    (hbar : rows[i]? = some bar) :
    (buyCond rows i = true →
      oget (buyRawCol rows) i =
        omul (some bar.Volume) (oget (relativeVolumeCol rows) i) ∧
      oget (sellRawCol rows) i = some (bar.Volume * (1 / 2))) ∧
    (sellCond rows i = true →
      oget (sellRawCol rows) i =
        omul (some bar.Volume) (oget (relativeVolumeCol rows) i) ∧
      oget (buyRawCol rows) i = some (bar.Volume * (1 / 2))) ∧
    (buyCond rows i = false → sellCond rows i = false →
      oget (buyRawCol rows) i = some (bar.Volume * (1 / 2)) ∧
      oget (sellRawCol rows) i = some (bar.Volume * (1 / 2)) ∧
      oadd (oget (buyRawCol rows) i) (oget (sellRawCol rows) i) =
        some bar.Volume) := by
  have hk : i < rows.length := lt_length_of_getElem? hbar
  have hvol := oget_volumeCol hbar
  refine ⟨fun hb => ?_, fun hs => ?_, fun hb hs => ?_⟩
  · have hs : sellCond rows i = false := by
      by_contra hs
      exact not_buy_and_sell rows i
        ⟨hb, by revert hs; cases sellCond rows i <;> simp⟩
    rw [oget_buyRaw hk, oget_sellRaw hk, if_pos hb, hs, if_neg (by simp), hvol]
    exact ⟨rfl, rfl⟩
  · have hb : buyCond rows i = false := by
      by_contra hb
      exact not_buy_and_sell rows i
        ⟨by revert hb; cases buyCond rows i <;> simp, hs⟩
    rw [oget_buyRaw hk, oget_sellRaw hk, if_pos hs, hb, if_neg (by simp), hvol]
    exact ⟨rfl, rfl⟩
  · rw [oget_buyRaw hk, oget_sellRaw hk, hb, hs, hvol]
    refine ⟨by simp [omul], by simp [omul], ?_⟩
    simp only [Bool.false_eq_true, if_false, omul, oadd, Option.some_inj]
    ring

/-- A one-bar frame for the C2 witness: close equals VWAP, so neither
predominant condition holds and the bar splits 50/50. -/
def c2wRows : List Bar := [⟨1, 1, 1, 1, 2⟩]

/-- Witness for the amended C2 at a concrete bar meeting neither condition:
the two halves add back to the bar's volume. -/
theorem C2_amended_witness :
    c2wRows[0]? = some ⟨1, 1, 1, 1, 2⟩ ∧
      oadd (oget (buyRawCol c2wRows) 0) (oget (sellRawCol c2wRows) 0) =
        some (Bar.mk 1 1 1 1 2).Volume :=
  ⟨rfl,
    ((@C2_amended c2wRows 0 ⟨1, 1, 1, 1, 2⟩ rfl).2.2
      (by with_unfolding_all decide) (by with_unfolding_all decide)).2.2⟩

/-! ### C3: the VWAP column -/

theorem vpCol_eq : ∀ rows : List Bar,
    vpCol rows =
      (rows.map fun b => (b.High + b.Low + b.Close) / 3 * b.Volume).map some
  | [] => rfl
  | b :: rows => by
    have ih := vpCol_eq rows
    simp only [vpCol, typicalPriceCol, volumeCol, List.map_cons,
      List.zipWith_cons_cons, omul, List.map_map] at ih ⊢
    rw [ih]

theorem oget_vwapCol {rows : List Bar} {i : ℕ} (h : i < rows.length) :
    oget (vwapCol rows) i =
      odiv
        (some (((rows.take (i + 1)).map fun b =>
          (b.High + b.Low + b.Close) / 3 * b.Volume).sum))
        (some (((rows.take (i + 1)).map Bar.Volume).sum)) := by
  unfold vwapCol
  rw [vpCol_eq, ocumsum_map_some]
  unfold oget
  rw [getElem?_zipWith, List.getElem?_map, List.getElem?_map,
    cumsum_getElem? _ _ (by simpa using h),
    cumsum_getElem? _ _ (by simpa [volumes] using h)]
  simp only [volumes, ← List.map_take]
  rfl

/-- C3: `VWAP[i]` equals the running quotient
`cumsum(TypicalPrice·volume)[0..i] / cumsum(volume)[0..i]`, the
`calculate_buy_sell_volume` output exposes exactly this column, and `VWAP[i]`
is unchanged when the series is truncated right after index `i`
(no lookahead). -/
theorem C3_vwap (data : DataFrame) (hne : data.rows ≠ []) {i : ℕ}
    (h : i < data.rows.length) :
    (calculate_buy_sell_volume data).VWAP = vwapCol data.rows ∧
    oget (vwapCol data.rows) i =
      odiv
        (some (((data.rows.take (i + 1)).map fun b =>
          (b.High + b.Low + b.Close) / 3 * b.Volume).sum))
        (some (((data.rows.take (i + 1)).map Bar.Volume).sum)) ∧
    oget (vwapCol (data.rows.take (i + 1))) i = oget (vwapCol data.rows) i := by
  refine ⟨?_, oget_vwapCol h, ?_⟩
  · rw [calculate_buy_sell_volume, if_neg (by simpa using hne)]
  · have h' : i < (data.rows.take (i + 1)).length := by
      simp only [List.length_take]
      omega
    rw [oget_vwapCol h', oget_vwapCol h, List.take_take]
    simp

/-- A two-bar frame for the C3 witness. -/
def c3Frame : DataFrame := rawFrame [⟨1, 2, 1, 2, 4⟩, ⟨2, 3, 2, 3, 4⟩]

/-- Witness for C3 at the two-bar frame, index 0. -/
theorem C3_vwap_witness :
    c3Frame.rows ≠ [] ∧ 0 < c3Frame.rows.length ∧
      oget (vwapCol c3Frame.rows) 0 =
        odiv
          (some (((c3Frame.rows.take 1).map fun b =>
            (b.High + b.Low + b.Close) / 3 * b.Volume).sum))
          (some (((c3Frame.rows.take 1).map Bar.Volume).sum)) ∧
      oget (vwapCol (c3Frame.rows.take 1)) 0 = oget (vwapCol c3Frame.rows) 0 :=
  ⟨by decide, by decide, (C3_vwap c3Frame (by decide) (by decide)).2.1,
    (C3_vwap c3Frame (by decide) (by decide)).2.2⟩

/-! ### C4: the rolling-envelope fallback -/

theorem oget_rollingOpt (f : List ℚ → Option ℚ) (w : ℕ) {xs : List ℚ} {i : ℕ}
    (hi : i < xs.length) :
    oget (rollingOpt f w xs) i =
      if w ≤ i + 1 then f (windowSlice w xs i) else none :=
  oget_rangeMap _ hi

theorem rollingOpt_length (f : List ℚ → Option ℚ) (w : ℕ) (xs : List ℚ) :
    (rollingOpt f w xs).length = xs.length := by
  simp [rollingOpt]

theorem rolling_lmax_spec {w i : ℕ} {xs : List ℚ} (hw0 : 0 < w)
    (hw : w ≤ i + 1) (hi : i < xs.length) :
    ∃ m, oget (rollingMax w xs) i = some m ∧
      (∃ j, i + 1 - w ≤ j ∧ j ≤ i ∧ xs[j]? = some m) ∧
      (∀ j y, i + 1 - w ≤ j → j ≤ i → xs[j]? = some y → y ≤ m) := by
  have hlen : (windowSlice w xs i).length = w := windowSlice_length hw hi
  have hne : windowSlice w xs i ≠ [] := by
    intro hnil
    rw [hnil] at hlen
    simp at hlen
    omega
  obtain ⟨m, hm⟩ := Option.isSome_iff_exists.1 (lmax_isSome hne)
  refine ⟨m, ?_, ?_, ?_⟩
  · rw [rollingMax, oget_rollingOpt _ _ hi, if_pos hw, hm]
  · obtain ⟨j', hj'⟩ := List.getElem?_of_mem (lmax_mem hm)
    have hj'w : j' < w := by
      have := lt_length_of_getElem? hj'
      omega
    refine ⟨i + 1 - w + j', by omega, by omega, ?_⟩
    rw [← windowSlice_getElem? hw hj'w]
    exact hj'
  · intro j y hj1 hj2 hjy
    have hj'w : j - (i + 1 - w) < w := by omega
    have hidx : i + 1 - w + (j - (i + 1 - w)) = j := by omega
    have hcell : (windowSlice w xs i)[j - (i + 1 - w)]? = some y := by
      rw [windowSlice_getElem? hw hj'w, hidx]
      exact hjy
    exact le_lmax hm y (List.getElem?_mem hcell)

theorem rolling_lmin_spec {w i : ℕ} {xs : List ℚ} (hw0 : 0 < w)
    (hw : w ≤ i + 1) (hi : i < xs.length) :
    ∃ m, oget (rollingMin w xs) i = some m ∧
      (∃ j, i + 1 - w ≤ j ∧ j ≤ i ∧ xs[j]? = some m) ∧
      (∀ j y, i + 1 - w ≤ j → j ≤ i → xs[j]? = some y → m ≤ y) := by
  have hlen : (windowSlice w xs i).length = w := windowSlice_length hw hi
  have hne : windowSlice w xs i ≠ [] := by
    intro hnil
    rw [hnil] at hlen
    simp at hlen
    omega
  obtain ⟨m, hm⟩ := Option.isSome_iff_exists.1 (lmin_isSome hne)
  refine ⟨m, ?_, ?_, ?_⟩
  · rw [rollingMin, oget_rollingOpt _ _ hi, if_pos hw, hm]
  · obtain ⟨j', hj'⟩ := List.getElem?_of_mem (lmin_mem hm)
    have hj'w : j' < w := by
      have := lt_length_of_getElem? hj'
      omega
    refine ⟨i + 1 - w + j', by omega, by omega, ?_⟩
    rw [← windowSlice_getElem? hw hj'w]
    exact hj'
  · intro j y hj1 hj2 hjy
    have hj'w : j - (i + 1 - w) < w := by omega
    have hidx : i + 1 - w + (j - (i + 1 - w)) = j := by omega
    have hcell : (windowSlice w xs i)[j - (i + 1 - w)]? = some y := by
      rw [windowSlice_getElem? hw hj'w, hidx]
      exact hjy
    exact lmin_le hm y (List.getElem?_mem hcell)

/-- C4: the scipy-free fallback of `find_support_resistance` uses the default
window 20; at every index with at least `w` bars of history the resistance
cell is exactly the maximum of the trailing `w` highs and the support cell
exactly the minimum of the trailing `w` lows; the two result series always
have the length of the input, hence are non-empty on non-empty input. -/
theorem C4_fallback (data : DataFrame) (w i : ℕ) (hw0 : 0 < w)
    (hw : w ≤ i + 1) (hi : i < data.rows.length) :
    find_support_resistance false data =
      (rollingMin 20 (lows data.rows), rollingMax 20 (highs data.rows)) ∧
    (∃ m, oget (find_support_resistance false data w).2 i = some m ∧
      (∃ j, i + 1 - w ≤ j ∧ j ≤ i ∧ (highs data.rows)[j]? = some m) ∧
      (∀ j y, i + 1 - w ≤ j → j ≤ i → (highs data.rows)[j]? = some y → y ≤ m)) ∧
    (∃ m, oget (find_support_resistance false data w).1 i = some m ∧
      (∃ j, i + 1 - w ≤ j ∧ j ≤ i ∧ (lows data.rows)[j]? = some m) ∧
      (∀ j y, i + 1 - w ≤ j → j ≤ i → (lows data.rows)[j]? = some y → m ≤ y)) ∧
    (find_support_resistance false data w).1.length = data.rows.length ∧
    (find_support_resistance false data w).2.length = data.rows.length ∧
    (data.rows ≠ [] → (find_support_resistance false data w).1 ≠ [] ∧
      (find_support_resistance false data w).2 ≠ []) := by
  have hH : i < (highs data.rows).length := by simpa [highs] using hi
  have hL : i < (lows data.rows).length := by simpa [lows] using hi
  have h2 : (find_support_resistance false data w).2 = rollingMax w (highs data.rows) := rfl
  have h1 : (find_support_resistance false data w).1 = rollingMin w (lows data.rows) := rfl
  refine ⟨rfl, ?_, ?_, ?_, ?_, ?_⟩
  · rw [h2]
    exact rolling_lmax_spec hw0 hw hH
  · rw [h1]
    exact rolling_lmin_spec hw0 hw hL
  · rw [h1, rollingMin, rollingOpt_length]
    simp [lows]
  · rw [h2, rollingMax, rollingOpt_length]
    simp [highs]
  · intro hne
    constructor
    · rw [h1]
      intro hnil
      have := congrArg List.length hnil
      rw [rollingMin, rollingOpt_length] at this
      simp [lows] at this
      exact hne this
    · rw [h2]
      intro hnil
      have := congrArg List.length hnil
      rw [rollingMax, rollingOpt_length] at this
      simp [highs] at this
      exact hne this

/-- A three-bar frame for the C4 witness. -/
def c4Frame : DataFrame :=
  rawFrame [⟨1, 5, 1, 2, 1⟩, ⟨2, 7, 2, 3, 1⟩, ⟨3, 6, 3, 4, 1⟩]

/-- Witness for C4 at window 2, index 2 of the three-bar frame. -/
theorem C4_fallback_witness :
    0 < 2 ∧ 2 ≤ 2 + 1 ∧ 2 < c4Frame.rows.length ∧
      (∃ m, oget (find_support_resistance false c4Frame 2).2 2 = some m ∧
        (∃ j, 2 + 1 - 2 ≤ j ∧ j ≤ 2 ∧ (highs c4Frame.rows)[j]? = some m) ∧
        (∀ j y, 2 + 1 - 2 ≤ j → j ≤ 2 →
          (highs c4Frame.rows)[j]? = some y → y ≤ m)) :=
  ⟨by decide, by decide, by decide,
    (C4_fallback c4Frame 2 2 (by decide) (by decide) (by decide)).2.1⟩

/-! ### C5: the scipy extrema strategy -/

theorem clipIdx_add (n i s : ℕ) :
    clipIdx n ((i : ℤ) + ((s : ℤ) + 1)) = min (i + s + 1) (n - 1) := by
  unfold clipIdx
  omega

theorem clipIdx_sub (n i s : ℕ) :
    clipIdx n ((i : ℤ) - ((s : ℤ) + 1)) = min (i - (s + 1)) (n - 1) := by
  unfold clipIdx
  omega

theorem relOk_iff (cmp : ℚ → ℚ → Bool) (hrefl : ∀ a, cmp a a = true)
    (ord : ℕ) (xs : List ℚ) (i : ℕ) (hi : i < xs.length) :
    relOk cmp ord xs i = true ↔
      ∀ j, j < xs.length → i ≤ j + ord → j ≤ i + ord →
        cmp (xs.getD i 0) (xs.getD j 0) = true := by
  unfold relOk
  rw [List.all_eq_true]
  constructor
  · intro h j hj hj1 hj2
    rcases lt_trichotomy i j with hij | rfl | hij
    · have hs : j - i - 1 < ord := by omega
      have hone := h (j - i - 1) (List.mem_range.2 hs)
      rw [Bool.and_eq_true] at hone
      have h1 := hone.1
      rw [clipIdx_add] at h1
      have hc : min (i + (j - i - 1) + 1) (xs.length - 1) = j := by omega
      rw [hc] at h1
      exact h1
    · exact hrefl _
    · have hs : i - j - 1 < ord := by omega
      have hone := h (i - j - 1) (List.mem_range.2 hs)
      rw [Bool.and_eq_true] at hone
      have h2 := hone.2
      rw [clipIdx_sub] at h2
      have hc : min (i - (i - j - 1 + 1)) (xs.length - 1) = j := by omega
      rw [hc] at h2
      exact h2
  · intro h s hs
    rw [List.mem_range] at hs
    rw [Bool.and_eq_true]
    constructor
    · rw [clipIdx_add]
      exact h _ (by omega) (by omega) (by omega)
    · rw [clipIdx_sub]
      exact h _ (by omega) (by omega) (by omega)

theorem mem_argrelextrema {cmp : ℚ → ℚ → Bool} (hrefl : ∀ a, cmp a a = true)
    {ord : ℕ} {xs : List ℚ} {i : ℕ} :
    i ∈ argrelextrema cmp ord xs ↔
      i < xs.length ∧ ∀ j, j < xs.length → i ≤ j + ord → j ≤ i + ord →
        cmp (xs.getD i 0) (xs.getD j 0) = true := by
  unfold argrelextrema
  rw [List.mem_filter, List.mem_range]
  constructor
  · rintro ⟨h1, h2⟩
    exact ⟨h1, (relOk_iff cmp hrefl ord xs i h1).1 h2⟩
  · rintro ⟨h1, h2⟩
    exact ⟨h1, (relOk_iff cmp hrefl ord xs i h1).2 h2⟩

/-- C5: under the extrema strategy, index `i` is reported as a resistance
level iff no bar within the symmetric `±order` window has a strictly greater
high (ties included, endpoints clipped), and symmetrically for supports with
lows; consequently in a strictly increasing high series no interior index is
a local maximum (for any positive order). -/
theorem C5_extrema (data : DataFrame) (ord i : ℕ) :
    (i ∈ argrelextrema geCmp ord (highs data.rows) ↔
      i < data.rows.length ∧
        ∀ j, j < data.rows.length → i ≤ j + ord → j ≤ i + ord →
          (highs data.rows).getD j 0 ≤ (highs data.rows).getD i 0) ∧
    (i ∈ argrelextrema leCmp ord (lows data.rows) ↔
      i < data.rows.length ∧
        ∀ j, j < data.rows.length → i ≤ j + ord → j ≤ i + ord →
          (lows data.rows).getD i 0 ≤ (lows data.rows).getD j 0) ∧
    ((∀ j, j + 1 < data.rows.length →
        (highs data.rows).getD j 0 < (highs data.rows).getD (j + 1) 0) →
      0 < ord → i + 1 < data.rows.length →
      i ∉ argrelextrema geCmp ord (highs data.rows)) := by
  have hge : ∀ a : ℚ, geCmp a a = true := fun a => by simp [geCmp]
  have hle : ∀ a : ℚ, leCmp a a = true := fun a => by simp [leCmp]
  have hlenH : (highs data.rows).length = data.rows.length := by simp [highs]
  have hlenL : (lows data.rows).length = data.rows.length := by simp [lows]
  refine ⟨?_, ?_, ?_⟩
  · rw [mem_argrelextrema hge, hlenH]
    simp only [geCmp, decide_eq_true_eq]
  · rw [mem_argrelextrema hle, hlenL]
    simp only [leCmp, decide_eq_true_eq]
  · intro hmono hord hi hmem
    rw [mem_argrelextrema hge, hlenH] at hmem
    obtain ⟨-, hall⟩ := hmem
    have hle' := hall (i + 1) (by omega) (by omega) (by omega)
    simp only [geCmp, decide_eq_true_eq] at hle'
    have hlt := hmono i hi
    linarith

/-- A frame with strictly increasing highs for the C5 witness. -/
def c5Frame : DataFrame :=
  rawFrame [⟨1, 1, 1, 1, 1⟩, ⟨2, 2, 2, 2, 1⟩, ⟨3, 3, 3, 3, 1⟩, ⟨4, 4, 4, 4, 1⟩]

/-- Witness for C5: with order 1 on strictly increasing highs, the interior
index 1 is not a local maximum. -/
theorem C5_extrema_witness :
    (∀ j, j + 1 < c5Frame.rows.length →
        (highs c5Frame.rows).getD j 0 < (highs c5Frame.rows).getD (j + 1) 0) ∧
      0 < 1 ∧ 1 + 1 < c5Frame.rows.length ∧
      1 ∉ argrelextrema geCmp 1 (highs c5Frame.rows) := by
  have hmono : ∀ j, j + 1 < c5Frame.rows.length →
      (highs c5Frame.rows).getD j 0 < (highs c5Frame.rows).getD (j + 1) 0 := by
    intro j hj
    have hj' : j < 3 := by
      simp [c5Frame, rawFrame] at hj
      omega
    interval_cases j <;> with_unfolding_all decide
  exact ⟨hmono, by decide, by decide,
    (C5_extrema c5Frame 1 1).2.2 hmono (by decide) (by decide)⟩

/-! ### C6: the volume profile -/

/-- The claim's reading of the bucketing, stated for comparison with the
code: partition `[lo, hi]` into `bins` equal-width buckets of width
`(hi - lo)/bins` and place `x` in the bucket containing it (the top endpoint
in the last bucket). -/
def specBucket (lo hi : ℚ) (bins : ℕ) (x : ℚ) : ℕ :=
  min (⌊(x - lo) / ((hi - lo) / bins)⌋.toNat) (bins - 1)

/-- The volume profile under the claim's equal-width bucketing, for
comparison with `calculate_volume_profile`. -/
def specVolumeProfile (data : DataFrame) (bins : ℕ := 50) : List ℚ :=
  let lo := (lmin (lows data.rows)).getD 0
  let hi := (lmax (highs data.rows)).getD 0
  data.rows.foldl
    (fun acc b =>
      let idx := specBucket lo hi bins b.Close
      acc.set idx (acc.getD idx 0 + b.Volume))
    (List.replicate bins 0)

/-- A one-bar frame whose close 0.99 separates the code's bucketing from the
claim's equal-width bucketing over price range `[0, 49]`. -/
def c6Frame : DataFrame := rawFrame [⟨1, 49, 0, 99 / 100, 7⟩]

/-- C6 as stated is false: the code builds its edges with
`np.linspace(min, max, bins)` — `bins` points, hence `bins − 1` intervals of
width 1 here — so the bar's volume lands in profile index 0, while the
bucket of width `49/50` containing the close 0.99 under the claimed
`bins`-equal-width partition is bucket 1, and the two profiles differ. -/
theorem C6_counterexample :
    (calculate_volume_profile c6Frame).2[0]? = some 7 ∧
      (calculate_volume_profile c6Frame).2[1]? = some 0 ∧
      specBucket 0 49 50 (99 / 100) = 1 ∧
      (specVolumeProfile c6Frame)[1]? = some 7 ∧
      (calculate_volume_profile c6Frame).2 ≠ specVolumeProfile c6Frame := by
  with_unfolding_all decide

theorem sum_set_add : ∀ (l : List ℚ) (i : ℕ), i < l.length → ∀ v : ℚ,
    (l.set i (l.getD i 0 + v)).sum = l.sum + v := by
  intro l
  induction l with
  | nil => intro i hi; simp at hi
  | cons x xs ih =>
    intro i hi v
    cases i with
    | zero => simp [List.getD]; ring
    | succ i =>
      have hi' : i < xs.length := by simpa using hi
      simp only [List.set_cons_succ, List.sum_cons, List.getD_cons_succ,
        ih i hi' v]
      ring

theorem profile_length (edges : List ℚ) :
    ∀ (rows : List Bar) (init : List ℚ),
      (rows.foldl (profileStep edges) init).length = init.length := by
  intro rows
  induction rows with
  | nil => intro init; rfl
  | cons b rows ih =>
    intro init
    rw [List.foldl_cons, ih]
    simp [profileStep]

theorem profile_sum (edges : List ℚ) :
    ∀ (rows : List Bar) (init : List ℚ),
      (∀ b ∈ rows, digitize b.Close edges - 1 < init.length) →
      (rows.foldl (profileStep edges) init).sum = init.sum + (volumes rows).sum := by
  intro rows
  induction rows with
  | nil => intro init _; simp [volumes]
  | cons b rows ih =>
    intro init h
    rw [List.foldl_cons]
    have hstep : (profileStep edges init b).sum = init.sum + b.Volume := by
      unfold profileStep
      exact sum_set_add init _ (h b (List.mem_cons_self b rows)) b.Volume
    have hlen : (profileStep edges init b).length = init.length := by
      simp [profileStep]
    rw [ih (profileStep edges init b)
      (fun b' hb' => by rw [hlen]; exact h b' (List.mem_cons_of_mem b hb')),
      hstep]
    simp [volumes]
    ring

theorem digitize_le (x : ℚ) (edges : List ℚ) :
    digitize x edges ≤ edges.length :=
  List.countP_le_length _

theorem digitize_pos {edges : List ℚ} {x lo : ℚ} (hmem : lo ∈ edges)
    (hle : lo ≤ x) : 1 ≤ digitize x edges := by
  unfold digitize
  have h : 0 < edges.countP fun e => decide (e ≤ x) :=
    List.countP_pos_iff.2 ⟨lo, hmem, by simpa using hle⟩
  omega

theorem linspace_length (a b : ℚ) (n : ℕ) : (linspace a b n).length = n := by
  simp [linspace]

theorem linspace_head {a b : ℚ} {n : ℕ} (hn : 0 < n) : a ∈ linspace a b n := by
  unfold linspace
  refine List.mem_map.2 ⟨0, List.mem_range.2 hn, ?_⟩
  simp

theorem lo_le_close {rows : List Bar} (hlc : ∀ b ∈ rows, b.Low ≤ b.Close)
    {b : Bar} (hb : b ∈ rows) : (lmin (lows rows)).getD 0 ≤ b.Close := by
  have hne : lows rows ≠ [] := by
    unfold lows
    simp only [ne_eq, List.map_eq_nil_iff]
    exact List.ne_nil_of_mem hb
  obtain ⟨m, hm⟩ := Option.isSome_iff_exists.1 (lmin_isSome hne)
  rw [hm, Option.getD_some]
  have hmem : b.Low ∈ lows rows := List.mem_map.2 ⟨b, hb, rfl⟩
  exact le_trans (lmin_le hm _ hmem) (hlc b hb)

/-- C6 amended: the code partitions `[min low, max high]` with
`price_bins` linspace points (so `price_bins − 1` equal-width intervals,
the top point its own bucket) and adds each bar's volume at index
`digitize(close) − 1`; the returned profile always has length `price_bins`,
every written index is in range when `low ≤ close` holds per bar, and the
profile sums to the series' total volume. -/
theorem C6_amended (data : DataFrame) (bins : ℕ) (hb : 0 < bins)
    (hlc : ∀ b ∈ data.rows, b.Low ≤ b.Close) :
    (calculate_volume_profile data bins).1.length = bins ∧
    (calculate_volume_profile data bins).2.length = bins ∧
    (∀ b ∈ data.rows,
      1 ≤ digitize b.Close (calculate_volume_profile data bins).1 ∧
      digitize b.Close (calculate_volume_profile data bins).1 ≤ bins) ∧
    (calculate_volume_profile data bins).2.sum = (volumes data.rows).sum := by
  have h1 : (calculate_volume_profile data bins).1 =
      linspace ((lmin (lows data.rows)).getD 0)
        ((lmax (highs data.rows)).getD 0) bins := rfl
  have h2 : (calculate_volume_profile data bins).2 =
      data.rows.foldl (profileStep (calculate_volume_profile data bins).1)
        (List.replicate bins 0) := rfl
  have hinrange : ∀ b ∈ data.rows,
      1 ≤ digitize b.Close (calculate_volume_profile data bins).1 ∧
      digitize b.Close (calculate_volume_profile data bins).1 ≤ bins := by
    intro b hbmem
    constructor
    · refine digitize_pos ?_ (lo_le_close hlc hbmem)
      rw [h1]
      exact linspace_head hb
    · have := digitize_le b.Close (calculate_volume_profile data bins).1
      rwa [h1, linspace_length] at this
  refine ⟨by rw [h1, linspace_length], ?_, hinrange, ?_⟩
  · rw [h2, profile_length]
    simp
  · rw [h2, profile_sum]
    · simp
    · intro b hbmem
      have := (hinrange b hbmem).2
      simp only [List.length_replicate]
      omega

/-- Witness for the amended C6 at the one-bar frame with 50 bins. -/
theorem C6_amended_witness :
    0 < 50 ∧ (∀ b ∈ c6Frame.rows, b.Low ≤ b.Close) ∧
      (calculate_volume_profile c6Frame 50).2.sum = (volumes c6Frame.rows).sum :=
  ⟨by decide, by with_unfolding_all decide,
    (C6_amended c6Frame 50 (by decide) (by with_unfolding_all decide)).2.2.2⟩

/-! ### C7, C8, C9: error handling, frame effects, idempotence -/

/-- C7: a transport/provider error makes `get_gld_data` return the empty
frame rather than propagate the exception; the refresh cycle then
short-circuits (no indicator computation, no volume classification); and
`calculate_buy_sell_volume` returns an empty input frame unchanged. -/
theorem C7_error_handling (e : String) (data : DataFrame)
    (h : data.rows = []) :
    get_gld_data (Except.error e) = emptyFrame ∧
    runCycle (Except.error e) = none ∧
    calculate_buy_sell_volume data = data := by
  refine ⟨rfl, rfl, ?_⟩
  simp [calculate_buy_sell_volume, h]

/-- Witness for C7 at a concrete error and the empty frame. -/
theorem C7_error_handling_witness :
    emptyFrame.rows = [] ∧ runCycle (Except.error "boom") = none ∧
      calculate_buy_sell_volume emptyFrame = emptyFrame :=
  ⟨rfl, (C7_error_handling "boom" emptyFrame rfl).2.1,
    (C7_error_handling "boom" emptyFrame rfl).2.2⟩

/-- C8: neither `calculate_all_indicators` nor `calculate_buy_sell_volume`
(nor their composition, the per-cycle pipeline) changes the raw OHLCV rows:
they only assign derived columns. -/
theorem C8_raw_preserved (data : DataFrame) :
    (calculate_all_indicators data).rows = data.rows ∧
    (calculate_buy_sell_volume data).rows = data.rows ∧
    (fullPipeline data).rows = data.rows := by
  have h1 : (calculate_all_indicators data).rows = data.rows := rfl
  have h2 : ∀ d : DataFrame, (calculate_buy_sell_volume d).rows = d.rows := by
    intro d
    rw [calculate_buy_sell_volume]
    split <;> rfl
  refine ⟨h1, h2 data, ?_⟩
  rw [fullPipeline, h2, h1]

/-- C9: running the full pipeline twice on the same raw series produces the
same enriched frame as running it once — every derived column is recomputed
purely from the raw rows, which the pipeline never changes. -/
theorem C9_idempotent (data : DataFrame) :
    fullPipeline (fullPipeline data) = fullPipeline data := by
  unfold fullPipeline calculate_buy_sell_volume calculate_all_indicators
  by_cases h : data.rows.isEmpty <;> simp [h]

/-! ### C10: NaN cells in the warm-up window -/

theorem volumeMACol_cell_early {rows : List Bar} {i : ℕ}
    (hi : i < rows.length) (h20 : i + 1 < 20) :
    (volumeMACol rows)[i]? = some none := by
  unfold volumeMACol rollingMean rollingOpt
  rw [List.getElem?_map, List.getElem?_range (by simpa [volumes] using hi)]
  have hlt : ¬20 ≤ i + 1 := by omega
  simp [hlt]
  omega

theorem oget_relVol_early {rows : List Bar} {i : ℕ}
    (hi : i < rows.length) (h20 : i + 1 < 20) :
    oget (relativeVolumeCol rows) i = none := by
  unfold oget relativeVolumeCol
  rw [getElem?_zipWith, volumeMACol_cell_early hi h20]
  cases hv : (volumeCol rows)[i]? with
  | none => simp
  | some a =>
    cases a with
    | none => simp [odiv]
    | some q => simp [odiv]

theorem buyRaw_early_none {rows : List Bar} {i : ℕ}
    (hi : i < rows.length) (h20 : i + 1 < 20)
    (hcond : buyCond rows i = true) :
    oget (buyRawCol rows) i = none := by
  rw [oget_buyRaw hi, if_pos hcond, oget_relVol_early hi h20]
  cases oget (volumeCol rows) i <;> rfl

theorem oget_renormalize_none {rows : List Bar} {col : List (Option ℚ)}
    {i : ℕ} (h : col[i]? = some none) :
    oget (renormalize rows col) i = none := by
  unfold renormalize
  split
  · unfold oget
    rw [List.getElem?_map, h]
    rfl
  · unfold oget
    rw [h]
    rfl

theorem getElem?_eq_some_none {col : List (Option ℚ)} {i : ℕ}
    (hi : i < col.length) (h : oget col i = none) : col[i]? = some none := by
  unfold oget at h
  cases hc : col[i]? with
  | none =>
    have := List.getElem?_eq_none_iff.1 hc
    omega
  | some c =>
    rw [hc] at h
    cases c with
    | none => rfl
    | some q => simp [Option.join] at h

theorem buyRawCol_length (rows : List Bar) :
    (buyRawCol rows).length = rows.length := by
  simp [buyRawCol]

/-- A two-bar series whose first bar (inside the 20-bar warm-up window)
meets the predominant buy condition. -/
def c10Rows : List Bar := [⟨1, 2, 1, 2, 4⟩, ⟨2, 2, 2, 2, 4⟩]

/-- C10 as stated is false: on this series with positive total volume the
first bar meets the predominant buy condition inside the warm-up window and
its Buy_Volume cell is NaN, but the pandas sums skip NaN, so the
pre-renormalization total is the defined number 6, the
`total_calculated > 0` guard IS taken, and the NaN-skipping sums after
renormalization still equal the total reported volume 8. -/
theorem C10_counterexample :
    buyCond c10Rows 0 = true ∧
      oget (buyRawCol c10Rows) 0 = none ∧
      total_calculated c10Rows = 6 ∧
      0 < total_calculated c10Rows ∧
      oget (buyFinalCol c10Rows) 0 = none ∧
      osum (buyFinalCol c10Rows) + osum (sellFinalCol c10Rows) =
        total_volume c10Rows := by
  with_unfolding_all decide

/-- C10 amended: when a bar inside the 20-bar warm-up window meets the
predominant buy condition, its Buy_Volume cell is undefined and the
undefined cell survives renormalization into the output; but the
NaN-skipping pandas sums make the pre-renormalization total a defined
number, that total is positive as soon as any bar carries positive volume —
so the renormalization guard IS taken — and the NaN-skipping sums of the
output still equal `sum(volume)`. -/
theorem C10_amended (data : DataFrame)
    (hv : ∀ b ∈ data.rows, 0 ≤ b.Volume)
    {i : ℕ} (hi : i < data.rows.length) (h20 : i + 1 < 20)
    (hcond : buyCond data.rows i = true)
    {k : ℕ} {vbar : Bar} (hk : data.rows[k]? = some vbar)
    (hkpos : 0 < vbar.Volume) :
    oget (buyRawCol data.rows) i = none ∧
    0 < total_calculated data.rows ∧
    oget (calculate_buy_sell_volume data).Buy_Volume i = none ∧
    osum (calculate_buy_sell_volume data).Buy_Volume +
        osum (calculate_buy_sell_volume data).Sell_Volume =
      (volumes data.rows).sum := by
  have hne : data.rows ≠ [] := by
    intro hnil
    rw [hnil] at hi
    simp at hi
  have hraw := buyRaw_early_none hi h20 hcond
  have hpos := total_calculated_pos hv hk hkpos
  refine ⟨hraw, hpos, ?_, ?_⟩
  · rw [Buy_Volume_eq hne]
    unfold buyFinalCol
    refine oget_renormalize_none (getElem?_eq_some_none ?_ hraw)
    rw [buyRawCol_length]
    exact hi
  · rw [Buy_Volume_eq hne, Sell_Volume_eq hne]
    exact sum_after_renormalize hpos

/-- The C10 series as a fetched frame. -/
def c10Frame : DataFrame := rawFrame c10Rows

/-- Witness for the amended C10 at the concrete two-bar frame. -/
theorem C10_amended_witness :
    buyCond c10Frame.rows 0 = true ∧
      oget (calculate_buy_sell_volume c10Frame).Buy_Volume 0 = none ∧
      osum (calculate_buy_sell_volume c10Frame).Buy_Volume +
          osum (calculate_buy_sell_volume c10Frame).Sell_Volume =
        (volumes c10Frame.rows).sum := by
  have h := @C10_amended c10Frame (by with_unfolding_all decide) 0
    (by decide) (by decide) (by with_unfolding_all decide) 0 ⟨1, 2, 1, 2, 4⟩
    rfl (by with_unfolding_all decide)
  exact ⟨by with_unfolding_all decide, h.2.2.1, h.2.2.2⟩

end Gld
